import Mathlib

/-!
Verification development for the pattern-engine verifier library
(`verification/python/verification.py`).  Python strings are modelled as
`List Char` with ASCII character classification (`str.isdigit`,
`str.isalpha`, `str.upper` restricted to ASCII, which covers every input
the claims touch).  Python's arbitrary-precision non-negative integers
are `Nat`; where a verifier can observe a sign we use `Int`.  A Python
function that can raise an uncaught exception is embedded with result
type `Option Bool`, `none` marking the escaping exception.
-/

namespace PE

/-- String literal to the `List Char` model of a Python `str`. -/
def chars (s : String) : List Char := s.data

/-- Models Python `str.isdigit` on ASCII: the characters `'0'..'9'`. -/
def pyDigit (c : Char) : Bool := 48 ≤ c.toNat && c.toNat ≤ 57

/-- Models Python `str.isalpha` on ASCII: `'A'..'Z'` and `'a'..'z'`. -/
def pyAlpha (c : Char) : Bool :=
  (65 ≤ c.toNat && c.toNat ≤ 90) || (97 ≤ c.toNat && c.toNat ≤ 122)

/-- Models Python `str.upper` on one ASCII character. -/
def pyUpperChar (c : Char) : Char :=
  if 97 ≤ c.toNat && c.toNat ≤ 122 then Char.ofNat (c.toNat - 32) else c

/-- Numeric value of a digit character (`int(c)` for `c` in `'0'..'9'`). -/
def charVal (c : Char) : Nat := c.toNat - 48

/-- Value of a digit string, most significant digit first. -/
def digitsVal (l : List Char) : Nat := l.foldl (fun a c => a * 10 + charVal c) 0

/-- Models Python `int(s)` on an unsigned string: succeeds exactly when
`s` is non-empty and all digits (`ValueError` otherwise). -/
def strToNat? (l : List Char) : Option Nat :=
  if l.isEmpty then none
  else if l.all pyDigit then some (digitsVal l) else none

/-- Models Python `int(s)` on a string without interior whitespace or
underscores: an optional single sign followed by a non-empty digit run. -/
def pyInt? (l : List Char) : Option Int :=
  match l with
  | '+' :: r => (strToNat? r).map Int.ofNat
  | '-' :: r => (strToNat? r).map (fun n => -(n : Int))
  | _ => (strToNat? l).map Int.ofNat

/-- Models Python `len(set(s)) == 1` for a string `s`. -/
def allSameB : List Char → Bool
  | [] => false
  | c :: r => r.all (· == c)

/-- Fuel-driven digit expansion backing `natChars`. -/
def natCharsAux : Nat → Nat → List Char
  | 0, _ => []
  | fuel + 1, n =>
    if n < 10 then [Nat.digitChar n]
    else natCharsAux fuel (n / 10) ++ [Nat.digitChar (n % 10)]

/-- Decimal digit characters of `n`, as Python `str(n)` for `n ≥ 0`. -/
def natChars (n : Nat) : List Char := natCharsAux (n + 1) n

/-- `luhn` from the source: strip non-digits, then mod-10 checksum with
every second digit from the right doubled (minus 9 when above 9).
Empty digit projection is rejected. -/
def luhn (value : List Char) : Bool :=
  let digits := (value.filter pyDigit).map charVal
  if digits.isEmpty then false
  else
    let checksum := (digits.reverse.foldl
      (fun (st : Nat × Nat) d =>
        let d2 := if st.2 % 2 = 1 then (if d * 2 > 9 then d * 2 - 9 else d * 2) else d
        (st.1 + d2, st.2 + 1)) (0, 0)).1
    checksum % 10 == 0

/-- A verifier value as stored in the registry. -/
abbrev VerifierFun := List Char → Bool

/-- The mutable Python dict `VERIFICATION_FUNCTIONS`, modelled as a
partial map from names to verifier functions. -/
abbrev Registry := String → Option VerifierFun

/-- `get_verification_function`: `VERIFICATION_FUNCTIONS.get(name)`. -/
def get_verification_function (r : Registry) (name : String) : Option VerifierFun :=
  r name

/-- `register_verification_function`: `VERIFICATION_FUNCTIONS[name] = func`,
silently replacing any existing entry. -/
def register_verification_function (r : Registry) (name : String)
    (func : VerifierFun) : Registry :=
  fun m => if m = name then some func else r m

/-- `unregister_verification_function`: deletes `name` when present and
reports whether an entry was removed; the second component is the
registry afterwards. -/
def unregister_verification_function (r : Registry) (name : String) :
    Bool × Registry :=
  match r name with
  | some _ => (true, fun m => if m = name then none else r m)
  | none => (false, r)

/-- The repeatedly used local `digits_only = "".join(c for c in value if
c.isdigit())`. -/
def digitsOnly (value : List Char) : List Char := value.filter pyDigit

/-- `not_timestamp` from the source: reject (return `false`) digit
projections that look like a 10-digit Unix timestamp, a 13-digit
millisecond timestamp, or a 14-digit `YYYYMMDDHHMMSS` whose fields pass
the basic range checks (day only bounded by 31). -/
def not_timestamp (value : List Char) : Bool :=
  if (digitsOnly value).isEmpty then true
  else if (digitsOnly value).length = 10 ∧ 1000000000 ≤ digitsVal (digitsOnly value) ∧
      digitsVal (digitsOnly value) ≤ 9999999999 then
    false
  else if (digitsOnly value).length = 13 ∧ 1000000000000 ≤ digitsVal (digitsOnly value) ∧
      digitsVal (digitsOnly value) ≤ 9999999999999 then
    false
  else if (digitsOnly value).length = 14 ∧
      1900 ≤ digitsVal ((digitsOnly value).take 4) ∧
      digitsVal ((digitsOnly value).take 4) ≤ 2099 ∧
      1 ≤ digitsVal (((digitsOnly value).drop 4).take 2) ∧
      digitsVal (((digitsOnly value).drop 4).take 2) ≤ 12 ∧
      1 ≤ digitsVal (((digitsOnly value).drop 6).take 2) ∧
      digitsVal (((digitsOnly value).drop 6).take 2) ≤ 31 ∧
      digitsVal (((digitsOnly value).drop 8).take 2) ≤ 23 ∧
      digitsVal (((digitsOnly value).drop 10).take 2) ≤ 59 ∧
      digitsVal (((digitsOnly value).drop 12).take 2) ≤ 59 then
    false
  else true

/-- Spec-side description of the digit projections `not_timestamp`
rejects: Unix seconds, Unix milliseconds, or a 14-digit compact datetime
whose date part only has to satisfy year 1900..2099, month 1..12 and day
1..31 (no calendar arithmetic), and whose time part is a valid
`HH:MM:SS`. -/
def timestampShape (ds : List Char) : Prop :=
  (ds.length = 10 ∧ 1000000000 ≤ digitsVal ds ∧ digitsVal ds ≤ 9999999999) ∨
  (ds.length = 13 ∧ 1000000000000 ≤ digitsVal ds ∧ digitsVal ds ≤ 9999999999999) ∨
  (ds.length = 14 ∧
    1900 ≤ digitsVal (ds.take 4) ∧ digitsVal (ds.take 4) ≤ 2099 ∧
    1 ≤ digitsVal ((ds.drop 4).take 2) ∧ digitsVal ((ds.drop 4).take 2) ≤ 12 ∧
    1 ≤ digitsVal ((ds.drop 6).take 2) ∧ digitsVal ((ds.drop 6).take 2) ≤ 31 ∧
    digitsVal ((ds.drop 8).take 2) ≤ 23 ∧
    digitsVal ((ds.drop 10).take 2) ≤ 59 ∧
    digitsVal ((ds.drop 12).take 2) ≤ 59)

/-- Claim-side Gregorian month length (leap year: divisible by 4 and not
by 100, unless by 400). -/
def gregorianDaysInMonth (month year : Nat) : Nat :=
  if month = 2 then
    if year % 4 = 0 ∧ (year % 100 ≠ 0 ∨ year % 400 = 0) then 29 else 28
  else if month = 4 ∨ month = 6 ∨ month = 9 ∨ month = 11 then 30
  else 31

/-- Python `str.strip()` restricted to ASCII whitespace. -/
def pyStrip (l : List Char) : List Char :=
  ((l.dropWhile Char.isWhitespace).reverse.dropWhile Char.isWhitespace).reverse

/-- Pure core of `_load_data_file`: `contents` is the list of lines when
the file exists and reading succeeds, `none` otherwise.  A missing or
unreadable file yields the empty set with no error; otherwise the header
line is dropped and the remaining lines are stripped, blanks ignored. -/
def load_data_file (contents : Option (List (List Char))) : List (List Char) :=
  match contents with
  | none => []
  | some [] => []
  | some (_ :: rest) => (rest.map pyStrip).filter (fun l => !l.isEmpty)

/-- The `all(int(d[i]) == int(d[i-1]) + 1 ...)` sequential-ascending test. -/
def seqAsc : List Char → Bool
  | a :: b :: r => (charVal b == charVal a + 1) && seqAsc (b :: r)
  | _ => true

/-- The `all(int(d[i]) == int(d[i-1]) - 1 ...)` sequential-descending test. -/
def seqDesc : List Char → Bool
  | a :: b :: r => (charVal b + 1 == charVal a) && seqDesc (b :: r)
  | _ => true

/-- `korean_zipcode_valid` from the source, with the loaded reference
set made explicit.  With data: membership of the raw value or of the
value with hyphens removed.  Without data: 5-digit heuristics. -/
def korean_zipcode_valid (refSet : List (List Char)) (value : List Char) : Bool :=
  if !refSet.isEmpty then
    refSet.contains value || refSet.contains (value.filter (fun c => c != '-'))
  else if (digitsOnly value).length ≠ 5 then false
  else if seqAsc (digitsOnly value) || seqDesc (digitsOnly value) then false
  else if allSameB (digitsOnly value) then false
  else if digitsVal (digitsOnly value) % 10000 = 0 then false
  else true

/-- The heuristic block of `us_zipcode_valid` (also reached when data is
present but the digit projection is neither 5 nor 9 long). -/
def us_zip_heuristic (value : List Char) : Bool :=
  if (digitsOnly value).length ≠ 5 ∧ (digitsOnly value).length ≠ 9 then false
  else if seqAsc ((digitsOnly value).take 5) || seqDesc ((digitsOnly value).take 5) then
    false
  else if allSameB ((digitsOnly value).take 5) then false
  else if digitsVal ((digitsOnly value).take 5) % 10000 = 0 then false
  else true

/-- `us_zipcode_valid` from the source, with the loaded reference set
made explicit. -/
def us_zipcode_valid (refSet : List (List Char)) (value : List Char) : Bool :=
  if !refSet.isEmpty then
    if (digitsOnly value).length = 5 then refSet.contains (digitsOnly value)
    else if (digitsOnly value).length = 9 then refSet.contains ((digitsOnly value).take 5)
    else us_zip_heuristic value
  else us_zip_heuristic value

/-- Spec-side: a strictly monotone digit sequence (ascending or
descending by 1 at every step). -/
def monotoneDigits (l : List Char) : Prop :=
  List.Chain' (fun a b => charVal b = charVal a + 1) l ∨
  List.Chain' (fun a b => charVal a = charVal b + 1) l

/-- Spec-side: the heuristic acceptance condition on the 5-digit base of
a zipcode — not all one digit, not strictly monotone, not a multiple of
10000. -/
def zipHeuristicAccept (base : List Char) : Prop :=
  ¬ allSameB base = true ∧ ¬ monotoneDigits base ∧ digitsVal base % 10000 ≠ 0

/-- The character loop of `iban_mod97`: digits pass through, letters
become `str(ord(c) - ord('A') + 10)`, anything else is the early
`return False`, modelled as `none`. -/
def ibanDigits : List Char → Option (List Char)
  | [] => some []
  | c :: r =>
    if pyDigit c then (ibanDigits r).map (fun t => c :: t)
    else if pyAlpha c then (ibanDigits r).map (fun t => natChars (c.toNat - 65 + 10) ++ t)
    else none

/-- `iban = value.replace(" ", "").upper()`. -/
def iban_norm (value : List Char) : List Char :=
  (value.filter (fun c => c != ' ')).map pyUpperChar

/-- `rearranged = iban[4:] + iban[:4]`. -/
def iban_rearranged (value : List Char) : List Char :=
  (iban_norm value).drop 4 ++ (iban_norm value).take 4

/-- `iban_mod97` from the source: build the numeric string and test
`int(numeric_string) % 97 == 1`; `int` of the empty string raises and is
caught as `False`. -/
def iban_mod97 (value : List Char) : Bool :=
  match ibanDigits (iban_rearranged value) with
  | none => false
  | some numeric =>
    match strToNat? numeric with
    | some n => n % 97 == 1
    | none => false

/-- Spec-side arithmetic reading of the rearranged IBAN: letters `A..Z`
contribute their value 10..35 positionally (two decimal digits), digits
pass through, any other character invalidates the input. -/
def ibanSpecValAux (acc : Nat) : List Char → Option Nat
  | [] => some acc
  | c :: r =>
    if pyDigit c then ibanSpecValAux (acc * 10 + charVal c) r
    else if pyAlpha c then ibanSpecValAux (acc * 100 + (c.toNat - 65 + 10)) r
    else none

/-- Spec-side IBAN validity: the rearranged, remapped value read as a
big integer is congruent to 1 modulo 97. -/
def spec_iban_valid (value : List Char) : Prop :=
  match ibanSpecValAux 0 (iban_rearranged value) with
  | some n => n % 97 = 1
  | none => False

/-- `belgium_rrn_valid` from the source: 11 digits, month in 1..12, day
in 1..31 (the code's "basic date validation"), then `97 - base9 % 97`
against the check digits, retried with `"2"` prepended for 2000s
births. -/
def belgium_rrn_valid (value : List Char) : Bool :=
  if (digitsOnly value).length ≠ 11 then false
  else if digitsVal (((digitsOnly value).drop 2).take 2) < 1 ∨
      12 < digitsVal (((digitsOnly value).drop 2).take 2) then false
  else if digitsVal (((digitsOnly value).drop 4).take 2) < 1 ∨
      31 < digitsVal (((digitsOnly value).drop 4).take 2) then false
  else if digitsVal (((digitsOnly value).drop 9).take 2) =
      97 - digitsVal ((digitsOnly value).take 9) % 97 then true
  else digitsVal (((digitsOnly value).drop 9).take 2) ==
      97 - (2000000000 + digitsVal ((digitsOnly value).take 9)) % 97

/-- Body of `sweden_personnummer_valid` once `digits` holds the 10-digit
form: month in 1..12, day in 1..31 (basic bounds only), then Luhn over
all 10 digits. -/
def sweden_core (ds : List Char) : Bool :=
  if digitsVal ((ds.drop 2).take 2) < 1 ∨ 12 < digitsVal ((ds.drop 2).take 2) then false
  else if digitsVal ((ds.drop 4).take 2) < 1 ∨ 31 < digitsVal ((ds.drop 4).take 2) then
    false
  else luhn ds

/-- `sweden_personnummer_valid` from the source: 12-digit inputs drop
the century, anything that is not 10 digits is rejected. -/
def sweden_personnummer_valid (value : List Char) : Bool :=
  if (digitsOnly value).length = 12 then sweden_core ((digitsOnly value).drop 2)
  else if (digitsOnly value).length ≠ 10 then false
  else sweden_core (digitsOnly value)

/-- The Korean bank prefix allow-list from the source. -/
def known_prefixes : List (List Char) :=
  [chars "110", chars "120", chars "150", chars "190", chars "830", chars "1002",
   chars "301", chars "3333", chars "100"]

/-- The sequential-digit counting loop of `korean_bank_account_valid`:
`cur` is the current run of ascending steps, `mx` the maximum seen. -/
def maxSeqAux : List Char → Char → Nat → Nat → Nat
  | [], _, _, mx => mx
  | c :: rest, prev, cur, mx =>
    if charVal c = charVal prev + 1 then maxSeqAux rest c (cur + 1) (max mx (cur + 1))
    else maxSeqAux rest c 0 mx

/-- `max_sequential` computed by the loop: the largest number of
consecutive ascending adjacent steps. -/
def maxSeqSteps : List Char → Nat
  | [] => 0
  | c :: rest => maxSeqAux rest c 0 0

/-- `korean_bank_account_valid` from the source. -/
def korean_bank_account_valid (value : List Char) : Bool :=
  if (digitsOnly value).isEmpty then false
  else if known_prefixes.any (fun p => p.isPrefixOf (digitsOnly value)) then
    if (digitsOnly value).length = 10 ∧ 1600000000 ≤ digitsVal (digitsOnly value) ∧
        digitsVal (digitsOnly value) ≤ 1800000000 then false
    else true
  else if (digitsOnly value).length = 10 ∧ 1000000000 ≤ digitsVal (digitsOnly value) ∧
      digitsVal (digitsOnly value) ≤ 9999999999 then false
  else if (digitsOnly value).length = 13 ∧
      1000000000000 ≤ digitsVal (digitsOnly value) ∧
      digitsVal (digitsOnly value) ≤ 9999999999999 then false
  else if (digitsOnly value).length = 14 ∧
      1900 ≤ digitsVal ((digitsOnly value).take 4) ∧
      digitsVal ((digitsOnly value).take 4) ≤ 2099 ∧
      1 ≤ digitsVal (((digitsOnly value).drop 4).take 2) ∧
      digitsVal (((digitsOnly value).drop 4).take 2) ≤ 12 ∧
      1 ≤ digitsVal (((digitsOnly value).drop 6).take 2) ∧
      digitsVal (((digitsOnly value).drop 6).take 2) ≤ 31 then false
  else if 10 ≤ (digitsOnly value).length ∧ 6 ≤ maxSeqSteps (digitsOnly value) then false
  else true

/-- Spec-side: the timestamp shapes `korean_bank_account_valid` rejects
for non-prefixed inputs (the 14-digit case checks only the date part). -/
def kbaTimestampShape (ds : List Char) : Prop :=
  (ds.length = 10 ∧ 1000000000 ≤ digitsVal ds ∧ digitsVal ds ≤ 9999999999) ∨
  (ds.length = 13 ∧ 1000000000000 ≤ digitsVal ds ∧ digitsVal ds ≤ 9999999999999) ∨
  (ds.length = 14 ∧
    1900 ≤ digitsVal (ds.take 4) ∧ digitsVal (ds.take 4) ≤ 2099 ∧
    1 ≤ digitsVal ((ds.drop 4).take 2) ∧ digitsVal ((ds.drop 4).take 2) ≤ 12 ∧
    1 ≤ digitsVal ((ds.drop 6).take 2) ∧ digitsVal ((ds.drop 6).take 2) ≤ 31)

/-- Spec-side: the digit string contains `k` contiguous digits that
ascend by exactly 1 at each step. -/
def hasAscendingRun (k : Nat) (ds : List Char) : Prop :=
  ∃ i, ((ds.drop i).take k).length = k ∧
    List.Chain' (fun a b => charVal b = charVal a + 1) ((ds.drop i).take k)

/-- Spec-side acceptance condition of `korean_bank_account_valid`: known
prefix ⟹ accept unless a 10-digit value in the tight current-era range;
no known prefix ⟹ accept unless timestamp-shaped or (length ≥ 10 with a
run of 7 ascending digits). -/
def kbaSpecAccept (ds : List Char) : Prop :=
  ds ≠ [] ∧
  (if known_prefixes.any (fun p => p.isPrefixOf ds) = true then
    ¬ (ds.length = 10 ∧ 1600000000 ≤ digitsVal ds ∧ digitsVal ds ≤ 1800000000)
  else
    ¬ kbaTimestampShape ds ∧ ¬ (10 ≤ ds.length ∧ hasAscendingRun 7 ds))

/-- Length of the ascending-step run starting at the head. -/
def ascRunFrom : List Char → Nat
  | a :: b :: r => if charVal b = charVal a + 1 then ascRunFrom (b :: r) + 1 else 0
  | _ => 0

/-- Maximum ascending-step run over all suffixes. -/
def maxRunSteps : List Char → Nat
  | [] => 0
  | c :: r => max (ascRunFrom (c :: r)) (maxRunSteps r)

/-- The 10-digit form `sweden_personnummer_valid` works on after the
century digits of a 12-digit input are dropped. -/
def sweden_digits (value : List Char) : List Char :=
  if (digitsOnly value).length = 12 then (digitsOnly value).drop 2 else digitsOnly value

/-- The Verhoeff multiplication table `d` from the source. -/
def verhoeff_d : List (List Nat) :=
  [[0, 1, 2, 3, 4, 5, 6, 7, 8, 9],
   [1, 2, 3, 4, 0, 6, 7, 8, 9, 5],
   [2, 3, 4, 0, 1, 7, 8, 9, 5, 6],
   [3, 4, 0, 1, 2, 8, 9, 5, 6, 7],
   [4, 0, 1, 2, 3, 9, 5, 6, 7, 8],
   [5, 9, 8, 7, 6, 0, 4, 3, 2, 1],
   [6, 5, 9, 8, 7, 1, 0, 4, 3, 2],
   [7, 6, 5, 9, 8, 2, 1, 0, 4, 3],
   [8, 7, 6, 5, 9, 3, 2, 1, 0, 4],
   [9, 8, 7, 6, 5, 4, 3, 2, 1, 0]]

/-- The Verhoeff permutation table `p` from the source. -/
def verhoeff_p : List (List Nat) :=
  [[0, 1, 2, 3, 4, 5, 6, 7, 8, 9],
   [1, 5, 7, 6, 2, 8, 3, 0, 9, 4],
   [5, 8, 0, 3, 7, 9, 6, 1, 4, 2],
   [8, 9, 1, 6, 0, 4, 3, 5, 2, 7],
   [9, 4, 5, 3, 1, 2, 6, 8, 7, 0],
   [4, 2, 8, 6, 5, 7, 3, 9, 0, 1],
   [2, 7, 9, 3, 8, 0, 6, 4, 1, 5],
   [7, 0, 4, 6, 9, 1, 3, 2, 5, 8]]

/-- Two-dimensional table lookup `t[i][j]` (indices are in range at
every call site; out-of-range defaults to 0). -/
def tbl (t : List (List Nat)) (i j : Nat) : Nat := (t.getD i []).getD j 0

/-- The `for i, char in enumerate(reversed_digits)` Verhoeff loop from
`india_aadhaar_valid`, as a fold carrying `(c, i)`. -/
def verhoeffLoop (ds : List Char) : Nat :=
  (ds.reverse.foldl
    (fun (st : Nat × Nat) ch =>
      (tbl verhoeff_d st.1 (tbl verhoeff_p (st.2 % 8) (charVal ch)), st.2 + 1))
    (0, 0)).1

/-- `india_aadhaar_valid` from the source. -/
def india_aadhaar_valid (value : List Char) : Bool :=
  if (digitsOnly value).length ≠ 12 then false
  else if (digitsOnly value).headD ' ' = '0' ∨ (digitsOnly value).headD ' ' = '1' then
    false
  else if allSameB (digitsOnly value) then false
  else verhoeffLoop (digitsOnly value) == 0

/-- Spec-side Verhoeff recurrence: walking a digit list with index `i`
and accumulator `c`, update `c := d[c][p[i mod 8][x]]`. -/
def verhoeffSpec : Nat → Nat → List Nat → Nat
  | _, c, [] => c
  | i, c, x :: r => verhoeffSpec (i + 1) (tbl verhoeff_d c (tbl verhoeff_p (i % 8) x)) r

/-- Spec-side acceptance for Aadhaar: exactly 12 digits, first digit
neither 0 nor 1, not all identical, and the right-to-left Verhoeff walk
ends at 0. -/
def aadhaarSpec (v : List Char) : Prop :=
  (digitsOnly v).length = 12 ∧
  (digitsOnly v).headD ' ' ≠ '0' ∧ (digitsOnly v).headD ' ' ≠ '1' ∧
  ¬ (∀ x ∈ digitsOnly v, x = (digitsOnly v).headD ' ') ∧
  verhoeffSpec 0 0 ((digitsOnly v).reverse.map charVal) = 0

/-- The DNI/NIE checksum alphabet. -/
def dniLetters : List Char := chars "TRWAGMYFPDXBNJZSQVHLCKE"

/-- `spain_dni_valid` from the source: strip spaces, upper-case, require
8 digits and a final letter, and compare against
`letters[number % 23]`. -/
def spain_dni_valid (value : List Char) : Bool :=
  match (value.filter (fun c => c != ' ')).map pyUpperChar with
  | [a, b, c, d, e, f, g, h, i] =>
    if ([a, b, c, d, e, f, g, h].all pyDigit) && pyAlpha i then
      dniLetters.getD (digitsVal [a, b, c, d, e, f, g, h] % 23) ' ' == i
    else false
  | _ => false

/-- The leading-letter replacement of `spain_nie_valid`
(`X→0, Y→1, Z→2`). -/
def nieRepl (a : Char) : Char :=
  if a = 'X' then '0' else if a = 'Y' then '1' else '2'

/-- `spain_nie_valid` from the source: `X/Y/Z` then 7 digits then a
letter; replace the lead letter by a digit and run the DNI check. -/
def spain_nie_valid (value : List Char) : Bool :=
  match (value.filter (fun c => c != ' ')).map pyUpperChar with
  | [a, b, c, d, e, f, g, h, i] =>
    if ¬ (a = 'X' ∨ a = 'Y' ∨ a = 'Z') then false
    else if ¬ ([b, c, d, e, f, g, h].all pyDigit = true) then false
    else if ¬ (pyAlpha i = true) then false
    else dniLetters.getD (digitsVal [nieRepl a, b, c, d, e, f, g, h] % 23) ' ' == i
  | _ => false

/-- The HETU check-character alphabet
(`"0123456789ABCDEFHJKLMNPRSTUVWXY"`). -/
def hetuSeq : List Char := chars "0123456789ABCDEFHJKLMNPRSTUVWXY"

/-- `_is_valid_date` from the source, on Python ints: months 1..12, day
bounded by the per-month table (February 29), with the leap-year test
only for February 29. -/
def is_valid_date (year month day : Int) : Bool :=
  if month < 1 ∨ 12 < month then false
  else if day < 1 ∨ 31 < day then false
  else if ([0, 31, 29, 31, 30, 31, 30, 31, 31, 30, 31, 30, 31] :
      List Int).getD month.toNat 0 < day then false
  else if month = 2 ∧ day = 29 ∧
      ¬ ((year.emod 4 = 0 ∧ year.emod 100 ≠ 0) ∨ year.emod 400 = 0) then false
  else true

/-- `finland_hetu_valid` from the source, embedded in `Option Bool`:
`some b` is an ordinary return, `none` is an exception escaping the
function.  The first three `int` calls sit inside `try/except`, but the
`int(number_str)` computing the checksum base does not — when the parsed
slices carry an interior sign character, that call raises an uncaught
`ValueError`. -/
def finland_hetu_valid (value : List Char) : Option Bool :=
  match (value.filter (fun c => c != ' ')).map pyUpperChar with
  | [c0, c1, c2, c3, c4, c5, c6, c7, c8, c9, c10] =>
    match pyInt? [c0, c1], pyInt? [c2, c3], pyInt? [c4, c5] with
    | some dd, some mm, some yy =>
      if ¬ (c6 = '+' ∨ c6 = '-' ∨ c6 = 'A') then some false
      else if ¬ ([c7, c8, c9].all pyDigit = true) then some false
      else
        if is_valid_date
            (if c6 = '+' then 1800 + yy else if c6 = '-' then 1900 + yy else 2000 + yy)
            mm dd = false then some false
        else
          match pyInt? [c0, c1, c2, c3, c4, c5, c7, c8, c9] with
          | some number => some (hetuSeq.getD (number.emod 31).toNat ' ' == c10)
          | none => none
    | _, _, _ => some false
  | _ => some false

end PE

namespace PE

theorem seqAsc_iff_chain (l : List Char) :
    seqAsc l = true ↔ List.Chain' (fun a b => charVal b = charVal a + 1) l := by
  induction l with
  | nil => simp [seqAsc]
  | cons a r ih =>
    cases r with
    | nil => simp [seqAsc]
    | cons b t =>
      rw [seqAsc, Bool.and_eq_true, beq_iff_eq, List.chain'_cons]
      exact and_congr_right fun _ => ih

theorem seqDesc_iff_chain (l : List Char) :
    seqDesc l = true ↔ List.Chain' (fun a b => charVal a = charVal b + 1) l := by
  induction l with
  | nil => simp [seqDesc]
  | cons a r ih =>
    cases r with
    | nil => simp [seqDesc]
    | cons b t =>
      rw [seqDesc, Bool.and_eq_true, beq_iff_eq, List.chain'_cons]
      exact and_congr (by omega) ih

theorem seqOr_iff_monotone (l : List Char) :
    (seqAsc l || seqDesc l) = true ↔ monotoneDigits l := by
  rw [Bool.or_eq_true, seqAsc_iff_chain, seqDesc_iff_chain, monotoneDigits]

theorem pyDigit_digitChar (d : Nat) (h : d < 10) : pyDigit (Nat.digitChar d) = true := by
  interval_cases d <;> decide

theorem charVal_digitChar (d : Nat) (h : d < 10) : charVal (Nat.digitChar d) = d := by
  interval_cases d <;> decide

theorem digitsVal_foldl (t : List Char) :
    ∀ a : Nat, t.foldl (fun a c => a * 10 + charVal c) a =
      a * 10 ^ t.length + digitsVal t := by
  induction t with
  | nil => intro a; simp [digitsVal]
  | cons c r ih =>
    intro a
    have h2 : digitsVal (c :: r) = charVal c * 10 ^ r.length + digitsVal r := by
      simp only [digitsVal, List.foldl_cons]
      rw [ih (0 * 10 + charVal c)]
      simp only [digitsVal]
      ring
    simp only [List.foldl_cons, List.length_cons]
    rw [ih (a * 10 + charVal c), h2]
    ring

theorem digitsVal_append (a b : List Char) :
    digitsVal (a ++ b) = digitsVal a * 10 ^ b.length + digitsVal b := by
  simp only [digitsVal, List.foldl_append]
  exact digitsVal_foldl b _

theorem natChars_eq_two (n : Nat) (h10 : 10 ≤ n) (h100 : n < 100) :
    natChars n = [Nat.digitChar (n / 10), Nat.digitChar (n % 10)] := by
  obtain ⟨m, rfl⟩ : ∃ m, n = m + 10 := ⟨n - 10, by omega⟩
  show natCharsAux (m + 10 + 1) (m + 10) = _
  rw [natCharsAux]
  rw [if_neg (by omega)]
  rw [natCharsAux]
  rw [if_pos (by omega)]
  rfl

theorem digitsVal_natChars_two (n : Nat) (h10 : 10 ≤ n) (h100 : n < 100) :
    digitsVal (natChars n) = n := by
  rw [natChars_eq_two n h10 h100]
  have h1 : charVal (Nat.digitChar (n / 10)) = n / 10 := charVal_digitChar _ (by omega)
  have h2 : charVal (Nat.digitChar (n % 10)) = n % 10 := charVal_digitChar _ (by omega)
  simp only [digitsVal, List.foldl_cons, List.foldl_nil, h1, h2]
  omega

theorem pyAlpha_letterVal (c : Char) (h : pyAlpha c = true) :
    10 ≤ c.toNat - 65 + 10 ∧ c.toNat - 65 + 10 < 100 := by
  simp only [pyAlpha, Bool.or_eq_true, Bool.and_eq_true, decide_eq_true_eq] at h
  omega

theorem ibanSpecValAux_eq (l : List Char) :
    ∀ acc : Nat, ibanSpecValAux acc l =
      (ibanDigits l).map (fun t => acc * 10 ^ t.length + digitsVal t) := by
  induction l with
  | nil => intro acc; simp [ibanSpecValAux, ibanDigits, digitsVal]
  | cons c r ih =>
    intro acc
    by_cases hd : pyDigit c = true
    · rw [ibanSpecValAux, ibanDigits, if_pos hd, if_pos hd, ih]
      cases hv : ibanDigits r with
      | none => rfl
      | some t =>
        simp only [Option.map_some']
        congr 1
        have hc : digitsVal (c :: t) = charVal c * 10 ^ t.length + digitsVal t := by
          simp only [digitsVal, List.foldl_cons]
          rw [digitsVal_foldl t (0 * 10 + charVal c)]
          simp only [digitsVal]
          ring
        simp only [List.length_cons, hc]
        ring
    · by_cases ha : pyAlpha c = true
      · rw [ibanSpecValAux, ibanDigits, if_neg hd, if_neg hd, if_pos ha, if_pos ha, ih]
        cases hv : ibanDigits r with
        | none => rfl
        | some t =>
          simp only [Option.map_some']
          congr 1
          obtain ⟨hL1, hL2⟩ := pyAlpha_letterVal c ha
          rw [digitsVal_append, List.length_append,
            digitsVal_natChars_two _ hL1 hL2,
            natChars_eq_two _ hL1 hL2]
          simp only [List.length_cons, List.length_nil]
          ring
      · rw [ibanSpecValAux, ibanDigits, if_neg hd, if_neg hd, if_neg ha, if_neg ha]
        rfl

theorem ibanDigits_all_digits (l : List Char) :
    ∀ t, ibanDigits l = some t → t.all pyDigit = true := by
  induction l with
  | nil =>
    intro t h
    simp only [ibanDigits, Option.some_inj] at h
    simp [← h]
  | cons c r ih =>
    intro t h
    rw [ibanDigits] at h
    by_cases hd : pyDigit c = true
    · rw [if_pos hd] at h
      cases hv : ibanDigits r with
      | none => rw [hv] at h; simp at h
      | some u =>
        rw [hv] at h
        simp only [Option.map_some', Option.some_inj] at h
        subst h
        simp [List.all_cons, hd, ih u hv]
    · by_cases ha : pyAlpha c = true
      · rw [if_neg hd, if_pos ha] at h
        cases hv : ibanDigits r with
        | none => rw [hv] at h; simp at h
        | some u =>
          rw [hv] at h
          simp only [Option.map_some', Option.some_inj] at h
          subst h
          obtain ⟨hL1, hL2⟩ := pyAlpha_letterVal c ha
          rw [List.all_append, natChars_eq_two _ hL1 hL2]
          simp only [List.all_cons, List.all_nil, Bool.and_true, Bool.and_eq_true]
          exact ⟨⟨pyDigit_digitChar _ (by omega), pyDigit_digitChar _ (by omega)⟩,
            ih u hv⟩
      · rw [if_neg hd, if_neg ha] at h
        simp at h

/-- C7: the Luhn check only looks at the digit subsequence: two strings
with the same digit projection agree, and a string without digits is
rejected. -/
theorem claim7_luhn_formatting_invariant :
    (∀ v w : List Char, v.filter pyDigit = w.filter pyDigit → luhn v = luhn w) ∧
    (∀ v : List Char, v.filter pyDigit = [] → luhn v = false) := by
  constructor
  · intro v w h
    simp only [luhn, h]
  · intro v h
    simp [luhn, h]

/-- Witness for C7 at concrete inputs: dashes do not change the Luhn
verdict of a card number, and a letters-only string is rejected. -/
theorem claim7_luhn_formatting_invariant_witness :
    luhn (chars "4111-1111-1111-1111") = luhn (chars "4111111111111111") ∧
    luhn (chars "no digits here") = false := by
  constructor
  · exact claim7_luhn_formatting_invariant.1 (chars "4111-1111-1111-1111")
      (chars "4111111111111111") (by decide)
  · exact claim7_luhn_formatting_invariant.2 (chars "no digits here") (by decide)

/-- C2 counterexample: the claim says a 14-digit string whose first 8
digits are not a valid calendar date (day 31 in February) is not treated
as a timestamp, i.e. `not_timestamp` should return `true` on it; the
code returns `false` because it only bounds the day by 31. -/
theorem claim2_not_timestamp_counterexample :
    not_timestamp (chars "20230231123456") = false ∧
    gregorianDaysInMonth 2 2023 < 31 := by
  constructor
  · decide
  · decide

/-- C2 (amended): `not_timestamp v = true` exactly when the digit
projection of `v` is not of timestamp shape, where the 14-digit shape
only requires year 1900..2099, month 1..12, day 1..31 (no calendar
arithmetic) and a valid `HH:MM:SS`; and `not_timestamp "1609459200"` is
`false`. -/
theorem claim2_not_timestamp_amended :
    (∀ v : List Char, not_timestamp v = true ↔ ¬ timestampShape (digitsOnly v)) ∧
    not_timestamp (chars "1609459200") = false := by
  constructor
  · intro v
    simp only [not_timestamp]
    split_ifs with h0 h1 h2 h3
    · rw [List.isEmpty_iff] at h0
      exact iff_of_true rfl (by rintro (⟨hl, _⟩ | ⟨hl, _⟩ | ⟨hl, _⟩) <;> simp [h0] at hl)
    · exact iff_of_false (by simp) (fun hn => hn (Or.inl h1))
    · exact iff_of_false (by simp) (fun hn => hn (Or.inr (Or.inl h2)))
    · exact iff_of_false (by simp) (fun hn => hn (Or.inr (Or.inr h3)))
    · exact iff_of_true rfl (by rintro (h | h | h); exacts [h1 h, h2 h, h3 h])
  · decide

/-- C8: registry semantics — registering binds the name (silently
replacing an existing binding), lookup of other names is unaffected,
unregistering reports whether the name was bound and removes it, and an
unbound name looks up to `none`. -/
theorem claim8_registry_semantics :
    (∀ (r : Registry) (n : String) (f : VerifierFun),
      get_verification_function (register_verification_function r n f) n = some f) ∧
    (∀ (r : Registry) (n : String) (f g : VerifierFun),
      get_verification_function
        (register_verification_function (register_verification_function r n f) n g) n =
        some g) ∧
    (∀ (r : Registry) (n m : String) (f : VerifierFun), m ≠ n →
      get_verification_function (register_verification_function r n f) m =
        get_verification_function r m) ∧
    (∀ (r : Registry) (n : String),
      (unregister_verification_function r n).1 =
        (get_verification_function r n).isSome ∧
      get_verification_function (unregister_verification_function r n).2 n = none) ∧
    (∀ (r : Registry) (n : String), r n = none →
      get_verification_function r n = none) := by
  refine ⟨?_, ?_, ?_, ?_, ?_⟩
  · intro r n f
    simp [get_verification_function, register_verification_function]
  · intro r n f g
    simp [get_verification_function, register_verification_function]
  · intro r n m f hm
    simp [get_verification_function, register_verification_function, hm]
  · intro r n
    cases h : r n <;>
      simp [get_verification_function, unregister_verification_function, h]
  · intro r n h
    simpa [get_verification_function] using h

/-- Witness for C8 at a concrete registry: registering `luhn` under a
name makes it the lookup result, and a different, never-registered name
still looks up to `none`. -/
theorem claim8_registry_semantics_witness :
    get_verification_function
      (register_verification_function (fun _ => none) "luhn" luhn) "luhn" = some luhn ∧
    get_verification_function
      (register_verification_function (fun _ => none) "luhn" luhn) "iban_mod97" = none := by
  constructor
  · exact claim8_registry_semantics.1 (fun _ => none) "luhn" luhn
  · have h := claim8_registry_semantics.2.2.1 (fun _ => none) "luhn" "iban_mod97" luhn
      (by decide)
    simpa [get_verification_function] using h

/-- C5: `iban_mod97` agrees with the arithmetic mod-97 reading of the
normalised, rotated, letter-remapped IBAN; the documented example
verifies; and the result only depends on the value with spaces
removed. -/
theorem claim5_iban_mod97_characterisation :
    (∀ v : List Char, iban_mod97 v = true ↔ spec_iban_valid v) ∧
    iban_mod97 (chars "GB82WEST12345698765432") = true ∧
    (∀ v w : List Char,
      v.filter (fun c => c != ' ') = w.filter (fun c => c != ' ') →
      iban_mod97 v = iban_mod97 w) := by
  refine ⟨?_, by decide, ?_⟩
  · intro v
    have hE := ibanSpecValAux_eq (iban_rearranged v) 0
    rw [iban_mod97, spec_iban_valid, hE]
    cases hd : ibanDigits (iban_rearranged v) with
    | none => simp
    | some t =>
      have hall := ibanDigits_all_digits (iban_rearranged v) t hd
      simp only [Option.map_some']
      show (match strToNat? t with
        | some n => n % 97 == 1
        | none => false) = true ↔ (0 * 10 ^ t.length + digitsVal t) % 97 = 1
      rw [Nat.zero_mul, Nat.zero_add]
      cases t with
      | nil =>
        exact iff_of_false (by simp [strToNat?]) (by decide)
      | cons c r =>
        rw [strToNat?, if_neg (by simp), if_pos hall]
        exact beq_iff_eq
  · intro v w h
    simp only [iban_mod97, iban_rearranged, iban_norm, h]

/-- Witness for C5: inserting spaces into the valid IBAN does not change
the verdict. -/
theorem claim5_iban_mod97_characterisation_witness :
    iban_mod97 (chars "GB82 WEST 1234 5698 7654 32") =
      iban_mod97 (chars "GB82WEST12345698765432") :=
  claim5_iban_mod97_characterisation.2.2 (chars "GB82 WEST 1234 5698 7654 32")
    (chars "GB82WEST12345698765432") (by decide)

theorem ascRunFrom_le_max (c : Char) (r : List Char) :
    ascRunFrom (c :: r) ≤ maxRunSteps (c :: r) := by
  rw [maxRunSteps]
  exact le_max_left _ _

theorem maxSeqAux_eq (rest : List Char) :
    ∀ (prev : Char) (cur mx : Nat), cur ≤ mx →
      maxSeqAux rest prev cur mx =
        max mx (max (cur + ascRunFrom (prev :: rest)) (maxRunSteps (prev :: rest))) := by
  induction rest with
  | nil =>
    intro prev cur mx hc
    rw [maxSeqAux]
    have h1 : ascRunFrom [prev] = 0 := rfl
    have h2 : maxRunSteps [prev] = max (ascRunFrom [prev]) (maxRunSteps []) := rfl
    have h3 : maxRunSteps ([] : List Char) = 0 := rfl
    rw [h2, h1, h3]
    simp only [Nat.max_def]
    split_ifs <;> omega
  | cons c rr ih =>
    intro prev cur mx hc
    have hM : maxRunSteps (prev :: c :: rr) =
        max (ascRunFrom (prev :: c :: rr)) (maxRunSteps (c :: rr)) := by
      rw [maxRunSteps]
    have hAM : ascRunFrom (c :: rr) ≤ maxRunSteps (c :: rr) := ascRunFrom_le_max c rr
    by_cases hstep : charVal c = charVal prev + 1
    · have hA : ascRunFrom (prev :: c :: rr) = ascRunFrom (c :: rr) + 1 := by
        rw [ascRunFrom, if_pos hstep]
      rw [maxSeqAux, if_pos hstep, ih c (cur + 1) (max mx (cur + 1)) (le_max_right _ _),
        hM, hA]
      simp only [Nat.max_def]
      split_ifs <;> omega
    · have hA : ascRunFrom (prev :: c :: rr) = 0 := by
        rw [ascRunFrom, if_neg hstep]
      rw [maxSeqAux, if_neg hstep, ih c 0 mx (Nat.zero_le _), hM, hA]
      simp only [Nat.max_def]
      split_ifs <;> omega

theorem maxSeqSteps_eq (ds : List Char) : maxSeqSteps ds = maxRunSteps ds := by
  cases ds with
  | nil => rfl
  | cons c rest =>
    rw [maxSeqSteps, maxSeqAux_eq rest c 0 0 (le_refl 0)]
    have hAM : ascRunFrom (c :: rest) ≤ maxRunSteps (c :: rest) := ascRunFrom_le_max c rest
    simp only [Nat.max_def]
    split_ifs <;> omega

theorem maxRunSteps_ge_iff (l : List Char) :
    ∀ n : Nat, n + 1 ≤ maxRunSteps l ↔ ∃ i, n + 1 ≤ ascRunFrom (l.drop i) := by
  induction l with
  | nil =>
    intro n
    constructor
    · intro h
      exact absurd h (by simp [maxRunSteps])
    · rintro ⟨i, hi⟩
      simp [ascRunFrom] at hi
  | cons c r ih =>
    intro n
    rw [maxRunSteps, le_max_iff, ih n]
    constructor
    · rintro (h | ⟨i, hi⟩)
      · exact ⟨0, by simpa using h⟩
      · exact ⟨i + 1, by simpa [List.drop_succ_cons] using hi⟩
    · rintro ⟨i, hi⟩
      cases i with
      | zero => exact Or.inl (by simpa using hi)
      | succ j => exact Or.inr ⟨j, by simpa [List.drop_succ_cons] using hi⟩

theorem ascRunFrom_ge_iff (s : List Char) :
    ∀ n : Nat, n + 1 ≤ ascRunFrom s ↔
      ((s.take (n + 2)).length = n + 2 ∧
        List.Chain' (fun a b => charVal b = charVal a + 1) (s.take (n + 2))) := by
  induction s with
  | nil => intro n; simp [ascRunFrom]
  | cons a t ih =>
    intro n
    cases t with
    | nil =>
      constructor
      · intro h
        exact absurd h (by simp [ascRunFrom])
      · rintro ⟨hl, _⟩
        simp [List.length_take] at hl
    | cons b r =>
      by_cases hstep : charVal b = charVal a + 1
      · cases n with
        | zero =>
          rw [ascRunFrom, if_pos hstep]
          constructor
          · intro _
            simp [List.take_succ_cons, List.chain'_cons, hstep]
          · intro _
            omega
        | succ m =>
          rw [ascRunFrom, if_pos hstep]
          have hmain : m + 1 + 1 ≤ ascRunFrom (b :: r) + 1 ↔
              m + 1 ≤ ascRunFrom (b :: r) := by omega
          rw [hmain, ih m]
          simp only [List.take_succ_cons, List.length_cons, List.chain'_cons]
          constructor
          · rintro ⟨hl, hc⟩
            exact ⟨by omega, hstep, hc⟩
          · rintro ⟨hl, _, hc⟩
            exact ⟨by omega, hc⟩
      · rw [ascRunFrom, if_neg hstep]
        refine iff_of_false (by omega) ?_
        rintro ⟨hl, hc⟩
        rw [List.take_succ_cons, List.take_succ_cons] at hc
        exact hstep (List.chain'_cons.mp hc).1

theorem maxSeq_six_iff (ds : List Char) :
    6 ≤ maxSeqSteps ds ↔ hasAscendingRun 7 ds := by
  rw [maxSeqSteps_eq]
  constructor
  · intro h
    obtain ⟨i, hi⟩ := (maxRunSteps_ge_iff ds 5).mp (by omega)
    obtain ⟨hl, hc⟩ := (ascRunFrom_ge_iff (ds.drop i) 5).mp hi
    simp only [show (5 + 2 : Nat) = 7 from rfl] at hl hc
    exact ⟨i, hl, hc⟩
  · rintro ⟨i, hl, hc⟩
    have h6 : 5 + 1 ≤ maxRunSteps ds := by
      refine (maxRunSteps_ge_iff ds 5).mpr ⟨i, ?_⟩
      refine (ascRunFrom_ge_iff (ds.drop i) 5).mpr ?_
      simp only [show (5 + 2 : Nat) = 7 from rfl]
      exact ⟨hl, hc⟩
    omega

/-- C1: the claim says every entry of `VERIFICATION_FUNCTIONS` returns
a boolean on every input and never raises.  `finland_hetu_valid`, a
registry entry, raises an uncaught `ValueError` on "03+290-123A": the
slices "03", "+2", "90" all parse inside the `try`, every intermediate
check passes, and then `int("03+290123")` outside any `try` raises
(modelled as `none`).  A well-formed input still returns a boolean. -/
theorem claim1_finland_hetu_uncaught_exception :
    finland_hetu_valid (chars "03+290-123A") = none ∧
    finland_hetu_valid (chars "010190-123M") = some true := by
  exact ⟨by decide, by decide⟩

theorem verhoeff_foldl_eq_spec (l : List Char) :
    ∀ (c i : Nat),
      (l.foldl
        (fun (st : Nat × Nat) ch =>
          (tbl verhoeff_d st.1 (tbl verhoeff_p (st.2 % 8) (charVal ch)), st.2 + 1))
        (c, i)).1 = verhoeffSpec i c (l.map charVal) := by
  induction l with
  | nil => intro c i; rfl
  | cons x r ih =>
    intro c i
    simp only [List.foldl_cons, List.map_cons, verhoeffSpec]
    exact ih _ _

theorem allSameB_eq_true_iff (l : List Char) (hne : l ≠ []) :
    allSameB l = true ↔ ∀ x ∈ l, x = l.headD ' ' := by
  cases l with
  | nil => exact absurd rfl hne
  | cons c r =>
    rw [show (c :: r).headD ' ' = c from rfl]
    simp only [allSameB, List.all_eq_true, beq_iff_eq, List.mem_cons]
    constructor
    · intro h x hx
      rcases hx with rfl | hx
      · rfl
      · exact h x hx
    · intro h x hx
      exact h x (Or.inr hx)

/-- C6: `india_aadhaar_valid` accepts exactly the inputs whose digit
subsequence is 12 long, does not start with 0 or 1, is not all one
digit, and whose right-to-left Verhoeff walk
`c := d[c][p[i mod 8][digit_i]]` ends at 0; a concrete Verhoeff-valid
number is accepted. -/
theorem claim6_aadhaar_verhoeff :
    (∀ v : List Char, india_aadhaar_valid v = true ↔ aadhaarSpec v) ∧
    india_aadhaar_valid (chars "234567890124") = true := by
  constructor
  · intro v
    rw [india_aadhaar_valid, aadhaarSpec]
    split_ifs with h1 h2 h3
    · exact iff_of_false (by simp) (fun hs => h1 hs.1)
    · refine iff_of_false (by simp) (fun hs => ?_)
      rcases h2 with h2 | h2
      · exact hs.2.1 h2
      · exact hs.2.2.1 h2
    · refine iff_of_false (by simp) (fun hs => ?_)
      have hne : digitsOnly v ≠ [] := by
        intro hnl
        rw [hnl] at hs
        simp at hs
      exact hs.2.2.2.1 ((allSameB_eq_true_iff _ hne).mp h3)
    · rw [beq_iff_eq]
      have hLoop : verhoeffLoop (digitsOnly v) =
          verhoeffSpec 0 0 ((digitsOnly v).reverse.map charVal) := by
        rw [verhoeffLoop]
        exact verhoeff_foldl_eq_spec _ 0 0
      rw [hLoop]
      constructor
      · intro h
        refine ⟨by omega, ?_, ?_, ?_, h⟩
        · intro hc
          exact h2 (Or.inl hc)
        · intro hc
          exact h2 (Or.inr hc)
        · intro hall
          have hne : digitsOnly v ≠ [] := by
            intro hnl
            have h12 : ¬ (digitsOnly v).length ≠ 12 := h1
            rw [hnl] at h12
            simp at h12
          exact h3 ((allSameB_eq_true_iff _ hne).mpr hall)
      · rintro ⟨_, _, _, _, hspec⟩
        exact hspec
  · decide

theorem pyDigit_ne_space (c : Char) (h : pyDigit c = true) : (c != ' ') = true := by
  simp only [bne_iff_ne, ne_eq]
  intro heq
  subst heq
  exact absurd h (by decide)

theorem pyUpperChar_digit (c : Char) (h : pyDigit c = true) : pyUpperChar c = c := by
  simp only [pyDigit, Bool.and_eq_true, decide_eq_true_eq] at h
  rw [pyUpperChar, if_neg]
  simp only [Bool.and_eq_true, decide_eq_true_eq, not_and]
  omega

theorem filter_space_digits (d : List Char) (h : d.all pyDigit = true) :
    d.filter (fun c => c != ' ') = d := by
  induction d with
  | nil => rfl
  | cons c r ih =>
    rw [List.all_cons, Bool.and_eq_true] at h
    rw [List.filter_cons, if_pos (pyDigit_ne_space c h.1), ih h.2]

theorem map_upper_digits (d : List Char) (h : d.all pyDigit = true) :
    d.map pyUpperChar = d := by
  induction d with
  | nil => rfl
  | cons c r ih =>
    rw [List.all_cons, Bool.and_eq_true] at h
    rw [List.map_cons, pyUpperChar_digit c h.1, ih h.2]

theorem nie_dni_aux (x xd : Char) (d : List Char) (L : Char)
    (hlen : d.length = 7) (hall : d.all pyDigit = true)
    (hx1 : x = 'X' ∨ x = 'Y' ∨ x = 'Z') (hx2 : nieRepl x = xd)
    (hx3 : (x != ' ') = true) (hx4 : pyUpperChar x = x)
    (hx7 : pyDigit xd = true) :
    spain_nie_valid (x :: d ++ [L]) = spain_dni_valid (xd :: d ++ [L]) := by
  have hnormx : ((x :: d ++ [L]).filter (fun c => c != ' ')).map pyUpperChar =
      x :: d ++ ([L].filter (fun c => c != ' ')).map pyUpperChar := by
    rw [List.cons_append, List.filter_cons, if_pos hx3, List.filter_append,
      filter_space_digits d hall, List.map_cons, hx4, List.map_append,
      map_upper_digits d hall, List.cons_append]
  have hnormd : ((xd :: d ++ [L]).filter (fun c => c != ' ')).map pyUpperChar =
      xd :: d ++ ([L].filter (fun c => c != ' ')).map pyUpperChar := by
    rw [List.cons_append, List.filter_cons, if_pos (pyDigit_ne_space xd hx7),
      List.filter_append, filter_space_digits d hall, List.map_cons,
      pyUpperChar_digit xd hx7, List.map_append, map_upper_digits d hall,
      List.cons_append]
  obtain ⟨d1, d2, d3, d4, d5, d6, d7, rfl⟩ :
      ∃ a1 a2 a3 a4 a5 a6 a7, d = [a1, a2, a3, a4, a5, a6, a7] := by
    rcases d with _ | ⟨a1, _ | ⟨a2, _ | ⟨a3, _ | ⟨a4, _ | ⟨a5, _ | ⟨a6,
      _ | ⟨a7, _ | ⟨a8, t⟩⟩⟩⟩⟩⟩⟩⟩ <;> simp at hlen
    exact ⟨a1, a2, a3, a4, a5, a6, a7, rfl⟩
  by_cases hL : L = ' '
  · subst hL
    have hLf : ([' '].filter (fun c => c != ' ')).map pyUpperChar = [] := by decide
    rw [hLf] at hnormx hnormd
    rw [spain_nie_valid, spain_dni_valid, hnormx, hnormd]
    simp only [List.append_nil]
  · have hLf : ([L].filter (fun c => c != ' ')).map pyUpperChar = [pyUpperChar L] := by
      rw [List.filter_cons, if_pos (by simpa using hL), List.filter_nil, List.map_cons,
        List.map_nil]
    rw [hLf] at hnormx hnormd
    rw [spain_nie_valid, spain_dni_valid, hnormx, hnormd]
    simp only [List.cons_append, List.nil_append]
    rw [if_neg (by simp [hx1]), if_neg (by simp [hall]), hx2]
    rw [List.all_cons, hx7, Bool.true_and, hall, Bool.true_and]
    by_cases hai : pyAlpha (pyUpperChar L) = true
    · rw [if_neg (by simp [hai]), if_pos hai]
    · rw [if_pos (by simpa using hai), if_neg (by simpa using hai)]

/-- C10: the NIE check is exactly the DNI mod-23 letter check after
replacing the leading X/Y/Z by 0/1/2: for every 7-character digit string
`d` and every character `L`, the three pairs agree. -/
theorem claim10_nie_reduces_to_dni (d : List Char) (L : Char)
    (hlen : d.length = 7) (hall : d.all pyDigit = true) :
    spain_nie_valid ('X' :: d ++ [L]) = spain_dni_valid ('0' :: d ++ [L]) ∧
    spain_nie_valid ('Y' :: d ++ [L]) = spain_dni_valid ('1' :: d ++ [L]) ∧
    spain_nie_valid ('Z' :: d ++ [L]) = spain_dni_valid ('2' :: d ++ [L]) :=
  ⟨nie_dni_aux 'X' '0' d L hlen hall (Or.inl rfl) (by decide) (by decide) (by decide)
      (by decide),
   nie_dni_aux 'Y' '1' d L hlen hall (Or.inr (Or.inl rfl)) (by decide) (by decide)
      (by decide) (by decide),
   nie_dni_aux 'Z' '2' d L hlen hall (Or.inr (Or.inr rfl)) (by decide) (by decide)
      (by decide) (by decide)⟩

/-- Witness for C10 at a concrete digit string and final letter. -/
theorem claim10_nie_reduces_to_dni_witness :
    spain_nie_valid ('X' :: chars "1234567" ++ ['L']) =
      spain_dni_valid ('0' :: chars "1234567" ++ ['L']) ∧
    spain_nie_valid ('Y' :: chars "1234567" ++ ['L']) =
      spain_dni_valid ('1' :: chars "1234567" ++ ['L']) ∧
    spain_nie_valid ('Z' :: chars "1234567" ++ ['L']) =
      spain_dni_valid ('2' :: chars "1234567" ++ ['L']) :=
  claim10_nie_reduces_to_dni (chars "1234567") 'L' (by decide) (by decide)

/-- C3 counterexample: "99912345699" has no known bank prefix, is 11
digits long, and contains the 6-digit strictly ascending run 123456, so
the claim says `korean_bank_account_valid` returns false — but the code
only rejects runs of 7 or more digits (6 ascending steps) and accepts
it. -/
theorem claim3_kba_counterexample :
    korean_bank_account_valid (chars "99912345699") = true ∧
    hasAscendingRun 6 (digitsOnly (chars "99912345699")) ∧
    known_prefixes.any (fun p => p.isPrefixOf (digitsOnly (chars "99912345699"))) = false ∧
    10 ≤ (digitsOnly (chars "99912345699")).length := by
  refine ⟨by decide, ⟨3, by decide, ?_⟩, by decide, by decide⟩
  show List.Chain' (fun a b => charVal b = charVal a + 1)
    ['1', '2', '3', '4', '5', '6']
  simp only [List.chain'_cons, List.chain'_singleton, and_true]
  exact ⟨by decide, by decide, by decide, by decide, by decide⟩

/-- C3 (amended): `korean_bank_account_valid` accepts exactly the
inputs with a non-empty digit projection that, with a known bank prefix,
are not a 10-digit value in [1600000000, 1800000000], and, without one,
are not timestamp-shaped and do not contain (at length ≥ 10) a run of 7
or more consecutive strictly-ascending digits. -/
theorem claim3_kba_amended (v : List Char) :
    korean_bank_account_valid v = true ↔ kbaSpecAccept (digitsOnly v) := by
  by_cases h0 : (digitsOnly v).isEmpty = true
  · have hnil : digitsOnly v = [] := by simpa [List.isEmpty_iff] using h0
    rw [korean_bank_account_valid, if_pos h0]
    exact iff_of_false (by simp) (fun hs => hs.1 hnil)
  · have hne : digitsOnly v ≠ [] := by
      intro hnl
      exact h0 (by simp [hnl])
    rw [korean_bank_account_valid, kbaSpecAccept, if_neg h0]
    by_cases hpref :
        known_prefixes.any (fun p => p.isPrefixOf (digitsOnly v)) = true
    · rw [if_pos hpref, if_pos hpref]
      by_cases h16 : (digitsOnly v).length = 10 ∧
          1600000000 ≤ digitsVal (digitsOnly v) ∧
          digitsVal (digitsOnly v) ≤ 1800000000
      · rw [if_pos h16]
        exact iff_of_false (by simp) (fun hs => hs.2 h16)
      · rw [if_neg h16]
        exact iff_of_true rfl ⟨hne, h16⟩
    · rw [if_neg hpref, if_neg hpref]
      by_cases h10 : (digitsOnly v).length = 10 ∧
          1000000000 ≤ digitsVal (digitsOnly v) ∧
          digitsVal (digitsOnly v) ≤ 9999999999
      · rw [if_pos h10]
        exact iff_of_false (by simp) (fun hs => hs.2.1 (Or.inl h10))
      · rw [if_neg h10]
        by_cases h13 : (digitsOnly v).length = 13 ∧
            1000000000000 ≤ digitsVal (digitsOnly v) ∧
            digitsVal (digitsOnly v) ≤ 9999999999999
        · rw [if_pos h13]
          exact iff_of_false (by simp) (fun hs => hs.2.1 (Or.inr (Or.inl h13)))
        · rw [if_neg h13]
          by_cases h14 : (digitsOnly v).length = 14 ∧
              1900 ≤ digitsVal ((digitsOnly v).take 4) ∧
              digitsVal ((digitsOnly v).take 4) ≤ 2099 ∧
              1 ≤ digitsVal (((digitsOnly v).drop 4).take 2) ∧
              digitsVal (((digitsOnly v).drop 4).take 2) ≤ 12 ∧
              1 ≤ digitsVal (((digitsOnly v).drop 6).take 2) ∧
              digitsVal (((digitsOnly v).drop 6).take 2) ≤ 31
          · rw [if_pos h14]
            exact iff_of_false (by simp) (fun hs => hs.2.1 (Or.inr (Or.inr h14)))
          · rw [if_neg h14]
            by_cases hseq : 10 ≤ (digitsOnly v).length ∧
                6 ≤ maxSeqSteps (digitsOnly v)
            · rw [if_pos hseq]
              exact iff_of_false (by simp)
                (fun hs => hs.2.2 ⟨hseq.1, (maxSeq_six_iff _).mp hseq.2⟩)
            · rw [if_neg hseq]
              refine iff_of_true rfl ⟨hne, ?_, ?_⟩
              · rintro (hts | hts | hts)
                · exact h10 hts
                · exact h13 hts
                · exact h14 hts
              · rintro ⟨hlen, hrun⟩
                exact hseq ⟨hlen, (maxSeq_six_iff _).mpr hrun⟩

theorem sweden_core_date_bounds (ds : List Char) (h : sweden_core ds = true) :
    1 ≤ digitsVal ((ds.drop 2).take 2) ∧ digitsVal ((ds.drop 2).take 2) ≤ 12 ∧
    1 ≤ digitsVal ((ds.drop 4).take 2) ∧ digitsVal ((ds.drop 4).take 2) ≤ 31 := by
  rw [sweden_core] at h
  split_ifs at h with h1 h2
  omega

/-- C4 counterexample: checksum-correct Belgian RRN and Swedish
personnummer digit strings with embedded date February 30 are accepted,
although no Gregorian February has 30 days. -/
theorem claim4_date_validation_counterexample :
    belgium_rrn_valid (chars "00023000183") = true ∧
    sweden_personnummer_valid (chars "0002300002") = true ∧
    gregorianDaysInMonth 2 1900 < 30 ∧ gregorianDaysInMonth 2 2000 < 30 := by
  refine ⟨by decide, by decide, by decide, by decide⟩

/-- C4 (amended): the two verifiers only enforce the basic bounds
month 1..12 and day 1..31 on the embedded date — no calendar
arithmetic. -/
theorem claim4_date_validation_amended :
    (∀ v : List Char, belgium_rrn_valid v = true →
      1 ≤ digitsVal (((digitsOnly v).drop 2).take 2) ∧
      digitsVal (((digitsOnly v).drop 2).take 2) ≤ 12 ∧
      1 ≤ digitsVal (((digitsOnly v).drop 4).take 2) ∧
      digitsVal (((digitsOnly v).drop 4).take 2) ≤ 31) ∧
    (∀ v : List Char, sweden_personnummer_valid v = true →
      1 ≤ digitsVal (((sweden_digits v).drop 2).take 2) ∧
      digitsVal (((sweden_digits v).drop 2).take 2) ≤ 12 ∧
      1 ≤ digitsVal (((sweden_digits v).drop 4).take 2) ∧
      digitsVal (((sweden_digits v).drop 4).take 2) ≤ 31) := by
  constructor
  · intro v h
    rw [belgium_rrn_valid] at h
    split_ifs at h with h1 h2 h3 h4 <;> omega
  · intro v h
    rw [sweden_personnummer_valid] at h
    split_ifs at h with h12 h10
    · have := sweden_core_date_bounds _ h
      rwa [sweden_digits, if_pos h12]
    · have := sweden_core_date_bounds _ h
      rwa [sweden_digits, if_neg h12]

/-- Witness for C4 at the accepted concrete inputs. -/
theorem claim4_date_validation_witness :
    (1 ≤ digitsVal (((digitsOnly (chars "00023000183")).drop 2).take 2) ∧
      digitsVal (((digitsOnly (chars "00023000183")).drop 2).take 2) ≤ 12 ∧
      1 ≤ digitsVal (((digitsOnly (chars "00023000183")).drop 4).take 2) ∧
      digitsVal (((digitsOnly (chars "00023000183")).drop 4).take 2) ≤ 31) ∧
    (1 ≤ digitsVal (((sweden_digits (chars "0002300002")).drop 2).take 2) ∧
      digitsVal (((sweden_digits (chars "0002300002")).drop 2).take 2) ≤ 12 ∧
      1 ≤ digitsVal (((sweden_digits (chars "0002300002")).drop 4).take 2) ∧
      digitsVal (((sweden_digits (chars "0002300002")).drop 4).take 2) ≤ 31) :=
  ⟨claim4_date_validation_amended.1 (chars "00023000183") (by decide),
   claim4_date_validation_amended.2 (chars "0002300002") (by decide)⟩

/-- C9 counterexample: with a reference set containing a hyphenated
entry, `korean_zipcode_valid` accepts the raw value even though the
hyphen-stripped value is not in the set, contradicting the claim that
membership is tested on the value with hyphens stripped. -/
theorem claim9_zipcode_counterexample :
    korean_zipcode_valid [chars "123-45"] (chars "123-45") = true ∧
    [chars "123-45"].contains ((chars "123-45").filter (fun c => c != '-')) = false := by
  exact ⟨by decide, by decide⟩

/-- C9 (amended): a missing or unreadable file loads as the empty set
without error; with an empty reference set the zipcode verifiers accept
exactly the inputs of the right digit length whose 5-digit base is not
all one digit, not strictly monotone, and not a multiple of 10000; with
a non-empty set they test membership — `korean_zipcode_valid` accepts if
the raw value or the hyphen-stripped value is a member, and
`us_zipcode_valid` tests the 5 digits (or the first 5 of 9). -/
theorem claim9_zipcode_amended :
    load_data_file none = [] ∧
    (∀ v : List Char, korean_zipcode_valid [] v = true ↔
      ((digitsOnly v).length = 5 ∧ zipHeuristicAccept (digitsOnly v))) ∧
    (∀ v : List Char, us_zipcode_valid [] v = true ↔
      (((digitsOnly v).length = 5 ∨ (digitsOnly v).length = 9) ∧
        zipHeuristicAccept ((digitsOnly v).take 5))) ∧
    (∀ (s : List (List Char)) (v : List Char), s ≠ [] →
      korean_zipcode_valid s v =
        (s.contains v || s.contains (v.filter (fun c => c != '-')))) ∧
    (∀ (s : List (List Char)) (v : List Char), s ≠ [] → (digitsOnly v).length = 5 →
      us_zipcode_valid s v = s.contains (digitsOnly v)) ∧
    (∀ (s : List (List Char)) (v : List Char), s ≠ [] → (digitsOnly v).length = 9 →
      us_zipcode_valid s v = s.contains ((digitsOnly v).take 5)) := by
  refine ⟨rfl, ?_, ?_, ?_, ?_, ?_⟩
  · intro v
    simp only [korean_zipcode_valid]
    split_ifs with hne h1 h2 h3 h4
    · simp at hne
    · exact iff_of_false (by simp) (fun h => h1 h.1)
    · exact iff_of_false (by simp)
        (fun h => h.2.2.1 ((seqOr_iff_monotone (digitsOnly v)).mp h2))
    · exact iff_of_false (by simp) (fun h => h.2.1 h3)
    · exact iff_of_false (by simp) (fun h => h.2.2.2 h4)
    · refine iff_of_true rfl ⟨by omega, ?_, ?_, h4⟩
      · exact h3
      · exact fun hm => h2 ((seqOr_iff_monotone (digitsOnly v)).mpr hm)
  · intro v
    have hempty : us_zipcode_valid [] v = us_zip_heuristic v := by
      simp [us_zipcode_valid]
    rw [hempty]
    simp only [us_zip_heuristic]
    split_ifs with h1 h2 h3 h4
    · exact iff_of_false (by simp) (fun h => by rcases h.1 with h5 | h9 <;> omega)
    · exact iff_of_false (by simp)
        (fun h => h.2.2.1 ((seqOr_iff_monotone ((digitsOnly v).take 5)).mp h2))
    · exact iff_of_false (by simp) (fun h => h.2.1 h3)
    · exact iff_of_false (by simp) (fun h => h.2.2.2 h4)
    · refine iff_of_true rfl ⟨by omega, ?_, ?_, h4⟩
      · exact h3
      · exact fun hm => h2 ((seqOr_iff_monotone ((digitsOnly v).take 5)).mpr hm)
  · intro s v hs
    have h : s.isEmpty = false := by
      cases s with
      | nil => exact absurd rfl hs
      | cons a t => rfl
    simp [korean_zipcode_valid, h]
  · intro s v hs hlen
    have h : s.isEmpty = false := by
      cases s with
      | nil => exact absurd rfl hs
      | cons a t => rfl
    simp [us_zipcode_valid, h, hlen]
  · intro s v hs hlen
    have h : s.isEmpty = false := by
      cases s with
      | nil => exact absurd rfl hs
      | cons a t => rfl
    simp [us_zipcode_valid, h, hlen]

/-- Witness for C9 at concrete reference sets: a non-empty Korean set is
consulted by membership, and a 9-digit US input is checked by its first
5 digits. -/
theorem claim9_zipcode_amended_witness :
    korean_zipcode_valid [chars "04524"] (chars "04524") =
      ([chars "04524"].contains (chars "04524") ||
        [chars "04524"].contains ((chars "04524").filter (fun c => c != '-'))) ∧
    us_zipcode_valid [chars "90210"] (chars "90210-1234") =
      [chars "90210"].contains ((digitsOnly (chars "90210-1234")).take 5) := by
  constructor
  · exact claim9_zipcode_amended.2.2.2.1 [chars "04524"] (chars "04524") (by decide)
  · exact claim9_zipcode_amended.2.2.2.2.2 [chars "90210"] (chars "90210-1234")
      (by decide) (by decide)

end PE
